import Mathlib

/-!
Shallow embedding of the snake game core (`snake_game/src/models.py`,
`snake_game/src/utils.py`, and the self-collision step of
`snake_game/src/game.py`).

Positions and directions are `Int × Int` (Python ints).  The Python class
attribute `Cube.rows` is the grid constant `N` (20 in the shipped game);
the functions below take it as an explicit parameter `rows` so that
grid-size-generic statements can be made, and game-level statements
instantiate `rows := 20`.

The pending-turns dict `Snake.turns : dict[tuple[int,int], list[int]]` is
embedded as an association list with unique keys; `turnsInsert` overwrites
an existing binding exactly as a Python dict assignment does, and
`turnsErase` is `dict.pop`.
-/

namespace SnakeGame

/-- One grid cell of the snake: `Cube.__init__` stores `pos`, `dirnx`,
`dirny` and `color` (defaults `dirnx=1`, `dirny=0`, `color=(255,0,0)`). -/
structure Cube where
  pos : Int × Int
  dirnx : Int
  dirny : Int
  color : Nat × Nat × Nat
  deriving Repr, DecidableEq

/-- `Cube(start)` with all defaulted arguments: direction `(1, 0)`,
color `(255, 0, 0)`. -/
def Cube.ofStart (start : Int × Int) : Cube :=
  { pos := start, dirnx := 1, dirny := 0, color := (255, 0, 0) }

/-- `Cube.move(dirnx, dirny)`: store the direction, then add it to the
position.  No wrapping happens here. -/
def Cube.move (c : Cube) (dirnx dirny : Int) : Cube :=
  { c with
    dirnx := dirnx
    dirny := dirny
    pos := (c.pos.1 + dirnx, c.pos.2 + dirny) }

/-- The pending-turns dict, keyed by grid position, mapping to a direction
pair (the Python value is the two-element list `[dirnx, dirny]`). -/
abbrev Turns : Type := List ((Int × Int) × (Int × Int))

/-- Dict lookup `turns[p]` / `p in turns`. -/
def turnsLookup (t : Turns) (p : Int × Int) : Option (Int × Int) :=
  match t with
  | [] => none
  | (k, v) :: rest => if k = p then some v else turnsLookup rest p

/-- Dict assignment `turns[p] = v`: overwrite the binding if the key is
present, otherwise append a new one. -/
def turnsInsert (t : Turns) (p : Int × Int) (v : Int × Int) : Turns :=
  match t with
  | [] => [(p, v)]
  | (k, w) :: rest =>
      if k = p then (k, v) :: rest else (k, w) :: turnsInsert rest p v

/-- Dict removal `turns.pop(p)`. -/
def turnsErase (t : Turns) (p : Int × Int) : Turns :=
  match t with
  | [] => []
  | (k, w) :: rest => if k = p then rest else (k, w) :: turnsErase rest p

/-- The snake: ordered body of cubes (index 0 is the head — in the Python
class `self.head` aliases `self.body[0]`), pending turns, and the
snake-level intended direction `(dirnx, dirny)`. -/
structure Snake where
  color : Nat × Nat × Nat
  body : List Cube
  turns : Turns
  dirnx : Int
  dirny : Int
  deriving Repr, DecidableEq

/-- `Snake.__init__(color, pos)`: one head cube (with the `Cube` defaults,
so the cube's own direction is `(1, 0)`), empty turns, snake-level
direction `(0, 1)`. -/
def Snake.init (color : Nat × Nat × Nat) (pos : Int × Int) : Snake :=
  { color := color
    body := [Cube.ofStart pos]
    turns := []
    dirnx := 0
    dirny := 1 }

/-- `self.head`, i.e. `self.body[0]` (the body is never empty in the
program; the default is unreachable there). -/
def Snake.headCube (s : Snake) : Cube :=
  s.body.headD (Cube.ofStart (0, 0))

/-- The four directional key states read by `Snake.handle_input`. -/
structure Keys where
  left : Bool
  right : Bool
  up : Bool
  down : Bool
  deriving Repr, DecidableEq

/-- `Snake.handle_input(keys)`: an `if/elif` chain over the four arrow
keys; each branch is guarded by "not the exact reverse of the current
direction", sets the snake-level direction and records it in the turns
dict at the head's current position. -/
def Snake.handleInput (keys : Keys) (s : Snake) : Snake :=
  if keys.left = true ∧ s.dirnx ≠ 1 then
    { s with dirnx := -1, dirny := 0
             turns := turnsInsert s.turns s.headCube.pos (-1, 0) }
  else if keys.right = true ∧ s.dirnx ≠ -1 then
    { s with dirnx := 1, dirny := 0
             turns := turnsInsert s.turns s.headCube.pos (1, 0) }
  else if keys.up = true ∧ s.dirny ≠ 1 then
    { s with dirnx := 0, dirny := -1
             turns := turnsInsert s.turns s.headCube.pos (0, -1) }
  else if keys.down = true ∧ s.dirny ≠ -1 then
    { s with dirnx := 0, dirny := 1
             turns := turnsInsert s.turns s.headCube.pos (0, 1) }
  else
    s

/-- The body of the `for i, c in enumerate(self.body)` loop of
`Snake.move`, for one cube: `isLast` is `i == len(self.body) - 1`.
Returns the updated cube and the (possibly popped) turns dict. -/
def moveCube (rows : Int) (turns : Turns) (isLast : Bool) (c : Cube) :
    Cube × Turns :=
  match turnsLookup turns c.pos with
  | some t =>
      (c.move t.1 t.2, if isLast then turnsErase turns c.pos else turns)
  | none =>
      if c.dirnx = -1 ∧ c.pos.1 ≤ 0 then
        ({ c with pos := (rows - 1, c.pos.2) }, turns)
      else if c.dirnx = 1 ∧ c.pos.1 ≥ rows - 1 then
        ({ c with pos := (0, c.pos.2) }, turns)
      else if c.dirny = 1 ∧ c.pos.2 ≥ rows - 1 then
        ({ c with pos := (c.pos.1, 0) }, turns)
      else if c.dirny = -1 ∧ c.pos.2 ≤ 0 then
        ({ c with pos := (c.pos.1, rows - 1) }, turns)
      else
        (c.move c.dirnx c.dirny, turns)

/-- The loop of `Snake.move`, head to tail, threading the turns dict
(the pop happens only while processing the tail, after every earlier
cube has already read the dict). -/
def moveBody (rows : Int) (turns : Turns) : List Cube → List Cube × Turns
  | [] => ([], turns)
  | c :: rest =>
      let step := moveCube rows turns rest.isEmpty c
      let tail := moveBody rows step.2 rest
      (step.1 :: tail.1, tail.2)

/-- `Snake.move()`, with the grid constant `Cube.rows` as parameter. -/
def Snake.moveS (rows : Int) (s : Snake) : Snake :=
  let r := moveBody rows s.turns s.body
  { s with body := r.1, turns := r.2 }

/-- `Snake.reset(pos)`: single fresh cube, empty turns, snake-level
direction `(0, 1)`. -/
def Snake.reset (s : Snake) (pos : Int × Int) : Snake :=
  { s with
    body := [Cube.ofStart pos]
    turns := []
    dirnx := 0
    dirny := 1 }

/-- `self.body[-1].dirnx = dx; self.body[-1].dirny = dy` — reassign the
direction fields of the last cube of the list. -/
def setLastDir (dx dy : Int) : List Cube → List Cube
  | [] => []
  | [c] => [{ c with dirnx := dx, dirny := dy }]
  | c :: c2 :: rest => c :: setLastDir dx dy (c2 :: rest)

/-- `Snake.add_cube()`: read the tail's stored direction `(dx, dy)`;
if it is one of the four axis units, append a fresh cube one cell behind
the tail; in every case reassign the last cube's direction to `(dx, dy)`. -/
def Snake.addCube (s : Snake) : Snake :=
  let tail := s.body.getLastD (Cube.ofStart (0, 0))
  let dx := tail.dirnx
  let dy := tail.dirny
  let body1 :=
    if dx = 1 ∧ dy = 0 then
      s.body ++ [Cube.ofStart (tail.pos.1 - 1, tail.pos.2)]
    else if dx = -1 ∧ dy = 0 then
      s.body ++ [Cube.ofStart (tail.pos.1 + 1, tail.pos.2)]
    else if dx = 0 ∧ dy = 1 then
      s.body ++ [Cube.ofStart (tail.pos.1, tail.pos.2 - 1)]
    else if dx = 0 ∧ dy = -1 then
      s.body ++ [Cube.ofStart (tail.pos.1, tail.pos.2 + 1)]
    else
      s.body
  { s with body := setLastDir dx dy body1 }

/-- Segment `x` collides if its position occurs among the positions of the
strictly later segments: `body[x].pos in [cube.pos for cube in body[x+1:]]`. -/
def collAt (body : List Cube) (i : Nat) : Prop :=
  match body.get? i with
  | some c => ∃ c2 ∈ body.drop (i + 1), c2.pos = c.pos
  | none => False

instance (body : List Cube) (i : Nat) : Decidable (collAt body i) := by
  unfold collAt
  cases body.get? i <;> simp <;> infer_instance

/-- The scan of `for x in range(len(snake.body))` in `game.main`: index of
the first segment whose position occurs in a strictly later segment. -/
def collisionScan : List Cube → Option Nat
  | [] => none
  | c :: rest =>
      if rest.any (fun c2 => c2.pos = c.pos) then some 0
      else (collisionScan rest).map (· + 1)

/-- The self-collision block of the game loop (`game.py` lines 50–55):
on the first detected collision, take the score (current body length),
reset the snake to `start`, and `break`; otherwise leave the snake alone.
Returns the optional score and the resulting snake. -/
def selfCollisionTick (start : Int × Int) (s : Snake) : Option Nat × Snake :=
  match collisionScan s.body with
  | some _ => (some s.body.length, s.reset start)
  | none => (none, s)

/-- `random_snack(rows, snake)`'s rejection loop, fuelled.  `draws i` is
the pair returned by the two `secrets.randbelow(rows)` calls of iteration
`i` (the i-th loop pass); `randbelow`'s contract — results lie in
`[0, rows)` — is a hypothesis of the theorems.  The Python loop has no
fuel; `none` means "still looping after `fuel` passes". -/
def randomSnackAux (body : List Cube) (draws : Nat → Nat × Nat) :
    Nat → Nat → Option (Nat × Nat)
  | 0, _ => none
  | fuel + 1, i =>
      let x := (draws i).1
      let y := (draws i).2
      if body.any (fun cube => cube.pos = ((x : Int), (y : Int))) then
        randomSnackAux body draws fuel (i + 1)
      else
        some (x, y)

/-- A direction is one of the four axis unit vectors. -/
def isAxisUnit (d : Int × Int) : Prop :=
  d = (1, 0) ∨ d = (-1, 0) ∨ d = (0, 1) ∨ d = (0, -1)

instance (d : Int × Int) : Decidable (isAxisUnit d) := by
  unfold isAxisUnit
  infer_instance

/-- Snake states reachable from a fresh snake at `start` by any sequence
of `handle_input` (arbitrary key states), `move`, `add_cube` and
`reset start`. -/
inductive Reachable (rows : Int) (start : Int × Int) : Snake → Prop
  | init (color : Nat × Nat × Nat) : Reachable rows start (Snake.init color start)
  | handle (keys : Keys) {s : Snake} (h : Reachable rows start s) :
      Reachable rows start (s.handleInput keys)
  | mv {s : Snake} (h : Reachable rows start s) :
      Reachable rows start (s.moveS rows)
  | add {s : Snake} (h : Reachable rows start s) :
      Reachable rows start s.addCube
  | res {s : Snake} (h : Reachable rows start s) :
      Reachable rows start (s.reset start)

/-- A position lies on the `rows × rows` grid: both coordinates in
`[0, rows)`. -/
def inGrid (rows : Int) (p : Int × Int) : Prop :=
  0 ≤ p.1 ∧ p.1 < rows ∧ 0 ≤ p.2 ∧ p.2 < rows

instance (rows : Int) (p : Int × Int) : Decidable (inGrid rows p) := by
  unfold inGrid
  infer_instance

/-- A position strictly inside the grid: both coordinates in
`(0, rows - 1)`, so that no edge-wrap branch of `Snake.move` can fire for
an axis-unit direction at this position. -/
def interiorPos (rows : Int) (p : Int × Int) : Prop :=
  0 < p.1 ∧ p.1 < rows - 1 ∧ 0 < p.2 ∧ p.2 < rows - 1

instance (rows : Int) (p : Int × Int) : Decidable (interiorPos rows p) := by
  unfold interiorPos
  infer_instance

/-- None of the four edge-wrap guards of `Snake.move` holds for cube `c`. -/
def noWrapGuards (rows : Int) (c : Cube) : Prop :=
  ¬(c.dirnx = -1 ∧ c.pos.1 ≤ 0) ∧ ¬(c.dirnx = 1 ∧ c.pos.1 ≥ rows - 1) ∧
    ¬(c.dirny = 1 ∧ c.pos.2 ≥ rows - 1) ∧ ¬(c.dirny = -1 ∧ c.pos.2 ≤ 0)

/-- Key state holding exactly the left arrow. -/
def keysOnlyLeft : Keys := ⟨true, false, false, false⟩

/-- Key state holding exactly the right arrow. -/
def keysOnlyRight : Keys := ⟨false, true, false, false⟩

/-- Key state holding exactly the up arrow. -/
def keysOnlyUp : Keys := ⟨false, false, true, false⟩

/-- Key state holding exactly the down arrow. -/
def keysOnlyDown : Keys := ⟨false, false, false, true⟩

/-- A cube at `q` with stored direction `d` and the default color. -/
def segAt (q : Int × Int) (d : Int × Int) : Cube :=
  { pos := q, dirnx := d.1, dirny := d.2, color := (255, 0, 0) }

/-- A segment that has already taken the turn recorded at `p`: it sits
`m` cells beyond `p` along the new direction `d'`. -/
def turnedSeg (p d' : Int × Int) (m : Nat) : Cube :=
  segAt (p.1 + (m : Int) * d'.1, p.2 + (m : Int) * d'.2) d'

/-- A segment still trailing towards `p`: it sits `j` cells behind `p`
against the old direction `d0`. -/
def trailSeg (p d0 : Int × Int) (j : Nat) : Cube :=
  segAt (p.1 - (j : Int) * d0.1, p.2 - (j : Int) * d0.2) d0

/-- The straight-line snake of length `L` after `k` of the `L` moves that
propagate the turn stamped at `p`: the first `k` segments have taken the
turn to `d'`, the rest still trail along `d0` towards `p`; the pending
turn at `p` has not yet been consumed while `k < L`.  `k = 0` is the
starting state of the turn-propagation scenario. -/
def lineSnakeAt (color : Nat × Nat × Nat) (p d0 d' : Int × Int) (L k : Nat) :
    Snake :=
  { color := color
    body := ((List.range k).map fun i => turnedSeg p d' (k - i)) ++
      ((List.range (L - k)).map (trailSeg p d0))
    turns := if k < L then [(p, d')] else []
    dirnx := d'.1
    dirny := d'.2 }

/-- The per-snake direction invariant maintained by the game: the body is
non-empty, every cube's stored direction is an axis unit, and every value
in the pending-turns dict is an axis unit. -/
def dirInvariant (s : Snake) : Prop :=
  s.body ≠ [] ∧ (∀ c ∈ s.body, isAxisUnit (c.dirnx, c.dirny)) ∧
    ∀ kv ∈ s.turns, isAxisUnit kv.2

/-! ## Helper lemmas -/

/-- `setLastDir` on a list ending in `c` rewrites exactly `c`'s direction
fields. -/
theorem setLastDir_append_singleton (dx dy : Int) (l : List Cube) (c : Cube) :
    setLastDir dx dy (l ++ [c]) = l ++ [{ c with dirnx := dx, dirny := dy }] := by
  induction l with
  | nil => rfl
  | cons a l ih =>
      cases l with
      | nil => rfl
      | cons b l' => simpa [setLastDir] using ih

/-- Reassigning the last cube's direction fields to their current values
is the identity. -/
theorem setLastDir_self (l : List Cube) (c : Cube) (d : Cube) :
    setLastDir ((l ++ [c]).getLastD d).dirnx ((l ++ [c]).getLastD d).dirny
      (l ++ [c]) = l ++ [c] := by
  rw [List.getLastD_concat, setLastDir_append_singleton]

/-- Unfolding equation: the body after `Snake.move`. -/
theorem moveS_body (rows : Int) (s : Snake) :
    (s.moveS rows).body = (moveBody rows s.turns s.body).1 := rfl

/-- Unfolding equation: the turns dict after `Snake.move`. -/
theorem moveS_turns (rows : Int) (s : Snake) :
    (s.moveS rows).turns = (moveBody rows s.turns s.body).2 := rfl

/-- A successful dict lookup returns a stored binding. -/
theorem turnsLookup_mem {t : Turns} {p v : Int × Int}
    (h : turnsLookup t p = some v) : (p, v) ∈ t := by
  induction t with
  | nil => simp [turnsLookup] at h
  | cons kv rest ih =>
      rw [turnsLookup] at h
      by_cases hk : kv.1 = p
      · rw [if_pos hk] at h
        have hv : kv.2 = v := Option.some_injective _ h
        have hkv : kv = (p, v) := Prod.ext hk hv
        rw [← hkv]
        exact List.mem_cons_self _ _
      · rw [if_neg hk] at h
        exact List.mem_cons_of_mem _ (ih h)

/-- `turns.pop` only removes bindings. -/
theorem turnsErase_subset {t : Turns} {p : Int × Int} {kv}
    (h : kv ∈ turnsErase t p) : kv ∈ t := by
  induction t with
  | nil => simp [turnsErase] at h
  | cons kw rest ih =>
      rw [turnsErase] at h
      by_cases hk : kw.1 = p
      · rw [if_pos hk] at h
        exact List.mem_cons_of_mem _ h
      · rw [if_neg hk] at h
        rcases List.mem_cons.mp h with h1 | h2
        · exact h1 ▸ List.mem_cons_self _ _
        · exact List.mem_cons_of_mem _ (ih h2)

/-- A binding of `turns[p] = v` is an old binding or carries the new
value. -/
theorem turnsInsert_mem {t : Turns} {p v : Int × Int} {kv}
    (h : kv ∈ turnsInsert t p v) : kv ∈ t ∨ kv.2 = v := by
  induction t with
  | nil =>
      rw [turnsInsert, List.mem_singleton] at h
      right
      rw [h]
  | cons kw rest ih =>
      rw [turnsInsert] at h
      by_cases hk : kw.1 = p
      · rw [if_pos hk] at h
        rcases List.mem_cons.mp h with h1 | h2
        · right
          rw [h1]
        · exact Or.inl (List.mem_cons_of_mem _ h2)
      · rw [if_neg hk] at h
        rcases List.mem_cons.mp h with h1 | h2
        · exact Or.inl (h1 ▸ List.mem_cons_self _ _)
        · rcases ih h2 with h3 | h3
          · exact Or.inl (List.mem_cons_of_mem _ h3)
          · exact Or.inr h3

/-- The defaulted last element of a non-empty list is a member. -/
theorem getLastD_mem {l : List Cube} (h : l ≠ []) (d : Cube) :
    l.getLastD d ∈ l := by
  obtain hnil | ⟨l', c, hlc⟩ := l.eq_nil_or_concat'
  · exact absurd hnil h
  · rw [hlc, List.getLastD_concat]
    exact List.mem_append_right _ (List.mem_singleton.mpr rfl)

/-- Every cube produced by `setLastDir` has the assigned direction or was
already in the list. -/
theorem setLastDir_dirs {dx dy : Int} : ∀ {l : List Cube} {c : Cube},
    c ∈ setLastDir dx dy l → (c.dirnx, c.dirny) = (dx, dy) ∨ c ∈ l := by
  intro l
  induction l with
  | nil => intro c h; simp [setLastDir] at h
  | cons a l ih =>
      intro c h
      cases l with
      | nil =>
          rw [setLastDir, List.mem_singleton] at h
          left
          rw [h]
      | cons b l' =>
          rw [setLastDir] at h
          rcases List.mem_cons.mp h with h1 | h2
          · exact Or.inr (h1 ▸ List.mem_cons_self _ _)
          · rcases ih h2 with h3 | h3
            · exact Or.inl h3
            · exact Or.inr (List.mem_cons_of_mem _ h3)

/-- `setLastDir` preserves length. -/
theorem setLastDir_length (dx dy : Int) : ∀ l : List Cube,
    (setLastDir dx dy l).length = l.length := by
  intro l
  induction l with
  | nil => rfl
  | cons a l ih =>
      cases l with
      | nil => rfl
      | cons b l' => simpa [setLastDir] using ih

/-- One `Snake.move` loop body keeps the direction invariant: the moved
cube's direction is an axis unit and the threaded dict still holds only
axis-unit values. -/
theorem moveCube_dirs {rows : Int} {t : Turns} {b : Bool} {c : Cube}
    (ht : ∀ kv ∈ t, isAxisUnit kv.2)
    (hc : isAxisUnit (c.dirnx, c.dirny)) :
    isAxisUnit ((moveCube rows t b c).1.dirnx, (moveCube rows t b c).1.dirny) ∧
      ∀ kv ∈ (moveCube rows t b c).2, isAxisUnit kv.2 := by
  rw [moveCube]
  cases hlk : turnsLookup t c.pos with
  | some v =>
      refine ⟨ht _ (turnsLookup_mem hlk), ?_⟩
      cases b with
      | false => simpa using ht
      | true => exact fun kv hkv => ht kv (turnsErase_subset hkv)
  | none =>
      split_ifs <;> exact ⟨hc, ht⟩

/-- The whole `Snake.move` loop keeps the direction invariant and the
body length. -/
theorem moveBody_dirs {rows : Int} : ∀ {l : List Cube} {t : Turns},
    (∀ kv ∈ t, isAxisUnit kv.2) → (∀ c ∈ l, isAxisUnit (c.dirnx, c.dirny)) →
    (∀ c ∈ (moveBody rows t l).1, isAxisUnit (c.dirnx, c.dirny)) ∧
      (∀ kv ∈ (moveBody rows t l).2, isAxisUnit kv.2) ∧
      (moveBody rows t l).1.length = l.length := by
  intro l
  induction l with
  | nil => intro t ht _; exact ⟨by simp [moveBody], by simpa [moveBody] using ht, rfl⟩
  | cons c rest ih =>
      intro t ht hl
      have hc := hl c (List.mem_cons_self _ _)
      have hstep := @moveCube_dirs rows t rest.isEmpty c ht hc
      have hrest := ih hstep.2 (fun x hx => hl x (List.mem_cons_of_mem _ hx))
      rw [moveBody]
      refine ⟨?_, hrest.2.1, by simpa using hrest.2.2⟩
      intro x hx
      rcases List.mem_cons.mp hx with h1 | h2
      · rw [h1]; exact hstep.1
      · exact hrest.1 x h2

/-- When the tail's stored direction is an axis unit, `add_cube` appends
one cube behind the tail — one cell against the tail's direction — and
the appended cube inherits the tail's direction. -/
theorem addCube_body_of_axis (s : Snake)
    (hax : isAxisUnit ((s.body.getLastD (Cube.ofStart (0, 0))).dirnx,
      (s.body.getLastD (Cube.ofStart (0, 0))).dirny)) :
    s.addCube.body = s.body ++
      [{ pos := ((s.body.getLastD (Cube.ofStart (0, 0))).pos.1 -
            (s.body.getLastD (Cube.ofStart (0, 0))).dirnx,
          (s.body.getLastD (Cube.ofStart (0, 0))).pos.2 -
            (s.body.getLastD (Cube.ofStart (0, 0))).dirny)
         dirnx := (s.body.getLastD (Cube.ofStart (0, 0))).dirnx
         dirny := (s.body.getLastD (Cube.ofStart (0, 0))).dirny
         color := (255, 0, 0) }] := by
  rcases hax with h | h | h | h <;>
    rw [Prod.mk.injEq] at h <;> obtain ⟨h1, h2⟩ := h <;>
    · rw [Snake.addCube]
      simp only [h1, h2]
      norm_num [setLastDir_append_singleton, Cube.ofStart]

/-- `handle_input` preserves the direction invariant. -/
theorem handleInput_dirInvariant {s : Snake} (keys : Keys)
    (hinv : dirInvariant s) : dirInvariant (s.handleInput keys) := by
  obtain ⟨hne, hdirs, ht⟩ := hinv
  rw [Snake.handleInput]
  split_ifs <;> refine ⟨hne, hdirs, ?_⟩ <;> try exact ht
  all_goals
    intro kv hkv
    rcases turnsInsert_mem hkv with h1 | h1
    · exact ht kv h1
    · rw [h1]; simp [isAxisUnit]

/-- `move` preserves the direction invariant. -/
theorem moveS_dirInvariant {rows : Int} {s : Snake}
    (hinv : dirInvariant s) : dirInvariant (s.moveS rows) := by
  obtain ⟨hne, hdirs, ht⟩ := hinv
  have hmb := @moveBody_dirs rows s.body s.turns ht hdirs
  refine ⟨?_, by rw [moveS_body]; exact hmb.1,
    by rw [moveS_turns]; exact hmb.2.1⟩
  intro hnil
  rw [moveS_body] at hnil
  have h0 := hmb.2.2
  rw [hnil] at h0
  exact hne (List.length_eq_zero.mp h0.symm)

/-- `add_cube` preserves the direction invariant. -/
theorem addCube_dirInvariant {s : Snake} (hinv : dirInvariant s) :
    dirInvariant s.addCube := by
  obtain ⟨hne, hdirs, ht⟩ := hinv
  have htail := hdirs _ (getLastD_mem hne (Cube.ofStart (0, 0)))
  have hb := addCube_body_of_axis s htail
  refine ⟨?_, ?_, ht⟩
  · rw [hb]
    simp
  · intro c hc
    rw [hb] at hc
    rcases List.mem_append.mp hc with h1 | h1
    · exact hdirs c h1
    · rw [List.mem_singleton] at h1
      rw [h1]
      exact htail

/-- Every snake reachable from a fresh snake satisfies the direction
invariant: non-empty body, axis-unit cube directions, axis-unit pending
turn values. -/
theorem reachable_dirInvariant {rows : Int} {start : Int × Int} {s : Snake}
    (h : Reachable rows start s) : dirInvariant s := by
  induction h with
  | init color =>
      refine ⟨by simp [Snake.init], ?_, by simp [Snake.init]⟩
      intro c hc
      rw [Snake.init] at hc
      simp only [List.mem_singleton] at hc
      rw [hc]
      exact Or.inl rfl
  | handle keys h ih => exact handleInput_dirInvariant keys ih
  | mv h ih => exact moveS_dirInvariant ih
  | add h ih => exact addCube_dirInvariant ih
  | res h ih =>
      refine ⟨by simp [Snake.reset], ?_, by simp [Snake.reset]⟩
      intro c hc
      rw [Snake.reset] at hc
      simp only [List.mem_singleton] at hc
      rw [hc]
      exact Or.inl rfl

/-- The updated cube computed by the `Snake.move` loop body does not
depend on the `i == len(body) - 1` flag (that flag only controls the
dict pop). -/
theorem moveCube_fst (rows : Int) (t : Turns) (b : Bool) (c : Cube) :
    (moveCube rows t b c).1 = (moveCube rows t false c).1 := by
  rw [moveCube, moveCube]
  cases turnsLookup t c.pos <;> rfl

/-- In the `Snake.move` loop every cube is processed against the
original turns dict (the only dict mutation, the tail pop, happens after
every cube has been read), so the new body is a pointwise map of the old
one. -/
theorem moveBody_fst (rows : Int) : ∀ (l : List Cube) (t : Turns),
    (moveBody rows t l).1 = l.map (fun c => (moveCube rows t false c).1) := by
  intro l
  induction l with
  | nil => intro t; rfl
  | cons c rest ih =>
      intro t
      show (moveCube rows t rest.isEmpty c).1 ::
          (moveBody rows (moveCube rows t rest.isEmpty c).2 rest).1 = _
      rw [List.map_cons, moveCube_fst]
      rcases hlk : turnsLookup t c.pos with _ | v
      · have h2 : (moveCube rows t rest.isEmpty c).2 = t := by
          rw [moveCube, hlk]
          split_ifs <;> rfl
        rw [h2, ih]
      · cases rest with
        | nil => rfl
        | cons d rest' =>
            have h2 : (moveCube rows t (d :: rest').isEmpty c).2 = t := by
              rw [moveCube, hlk]
              rfl
            rw [h2, ih]

/-- A cube whose position is not a pending-turn key, whose direction is
an axis unit and whose position is on the grid stays on the grid after
one `Snake.move` loop step. -/
theorem moveCube_inGrid {rows : Int} {t : Turns} {c : Cube}
    (hl : turnsLookup t c.pos = none) (hax : isAxisUnit (c.dirnx, c.dirny))
    (hg : inGrid rows c.pos) :
    inGrid rows ((moveCube rows t false c).1).pos := by
  obtain ⟨hg1, hg2, hg3, hg4⟩ := hg
  rcases hax with h | h | h | h <;>
    rw [Prod.mk.injEq] at h <;> obtain ⟨h1, h2⟩ := h <;>
    · rw [moveCube, hl]
      split_ifs <;>
        · first
          | exact ⟨by omega, by omega, by omega, by omega⟩
          | (refine ⟨?_, ?_, ?_, ?_⟩ <;> simp [Cube.move, h1, h2] <;> omega)

/-! ## C2 -/

/-- C2 counterexample: from the fresh snake at the in-grid position
`(19, 10)` on the 20-row grid, pressing RIGHT and calling `Snake.move()`
once is a reachable after-move state whose head sits at `(20, 10)`,
outside `[0, 20)`: the pending-turn branch of `move` applies the turn
without any wrapping. -/
theorem c2_counterexample :
    Reachable 20 (19, 10)
        (((Snake.init (255, 0, 0) (19, 10)).handleInput keysOnlyRight).moveS 20) ∧
      ¬ (∀ c ∈ (((Snake.init (255, 0, 0) (19, 10)).handleInput
            keysOnlyRight).moveS 20).body, inGrid 20 c.pos) := by
  constructor
  · exact Reachable.mv (Reachable.handle keysOnlyRight (Reachable.init _))
  · decide

/-- C2 amended: `Snake.move` maps each segment through its loop step
against the pre-move turns dict, and every segment whose position is not
a pending-turn key, has an axis-unit direction and lies in `[0, N)²`
stays in `[0, N)²`; a segment sitting on a pending-turn key is moved by
the recorded turn with no wrap and may leave the grid. -/
theorem c2_no_turn_segments_stay_in_grid (rows : Int) (s : Snake) :
    (s.moveS rows).body =
        s.body.map (fun c => (moveCube rows s.turns false c).1) ∧
      ∀ c ∈ s.body, turnsLookup s.turns c.pos = none →
        isAxisUnit (c.dirnx, c.dirny) → inGrid rows c.pos →
        inGrid rows ((moveCube rows s.turns false c).1).pos := by
  refine ⟨by rw [moveS_body, moveBody_fst], ?_⟩
  intro c _ hl hax hg
  exact moveCube_inGrid hl hax hg

/-- C2 witness: the fresh snake at `(10, 10)`: its single segment is on
no pending-turn key and stays on the 20-row grid after the move. -/
theorem c2_no_turn_segments_stay_in_grid_witness :
    ((Snake.init (255, 0, 0) (10, 10)).moveS 20).body =
        (Snake.init (255, 0, 0) (10, 10)).body.map
          (fun c => (moveCube 20 (Snake.init (255, 0, 0) (10, 10)).turns
            false c).1) ∧
      inGrid 20 ((moveCube 20 (Snake.init (255, 0, 0) (10, 10)).turns false
        (Cube.ofStart (10, 10))).1).pos :=
  ⟨(c2_no_turn_segments_stay_in_grid 20 (Snake.init (255, 0, 0) (10, 10))).1,
    (c2_no_turn_segments_stay_in_grid 20 (Snake.init (255, 0, 0) (10, 10))).2
      (Cube.ofStart (10, 10)) (by decide) (by decide) (by decide) (by decide)⟩

/-! ## C1 -/

/-- C1 counterexample: the freshly constructed snake at `(10, 10)` has
body length 1 and snake-level direction `(0, 1)`, yet one `Snake.move()`
puts the head at `(11, 10)`, not at `(10, 11)` as claimed. -/
theorem c1_counterexample :
    ((Snake.init (255, 0, 0) (10, 10)).dirnx,
      (Snake.init (255, 0, 0) (10, 10)).dirny) = (0, 1) ∧
    (Snake.init (255, 0, 0) (10, 10)).body.length = 1 ∧
    ((Snake.init (255, 0, 0) (10, 10)).moveS 20).headCube.pos = (11, 10) ∧
    ((Snake.init (255, 0, 0) (10, 10)).moveS 20).headCube.pos ≠ (10, 11) := by
  refine ⟨rfl, rfl, rfl, ?_⟩
  decide

/-- C1 amended: one `Snake.move()` on a freshly constructed snake at
`(10, 10)` leaves the head at `(11, 10)`: `Snake.move` moves every segment
by the segment's own stored direction, the fresh head cube's direction
defaults to `(1, 0)`, and the snake-level default `(0, 1)` is not
consulted until an input records a turn. -/
theorem c1_fresh_snake_first_move (color : Nat × Nat × Nat) :
    (Snake.init color (10, 10)).moveS 20 =
      { color := color
        body := [{ pos := (11, 10), dirnx := 1, dirny := 0,
                   color := (255, 0, 0) }]
        turns := []
        dirnx := 0
        dirny := 1 } := by
  rfl

/-! ## C5 -/

/-- C5: head-direction reversal is never accepted by
`Snake.handle_input`: for each of the four axis directions, a key state
holding exactly the key for the reverse direction leaves the snake-level
direction and the pending-turns dict unchanged. -/
theorem c5_no_reversal (s : Snake) :
    (((s.dirnx, s.dirny) = (1, 0) →
        ((s.handleInput keysOnlyLeft).dirnx = s.dirnx ∧
          (s.handleInput keysOnlyLeft).dirny = s.dirny ∧
          (s.handleInput keysOnlyLeft).turns = s.turns)) ∧
      ((s.dirnx, s.dirny) = (-1, 0) →
        ((s.handleInput keysOnlyRight).dirnx = s.dirnx ∧
          (s.handleInput keysOnlyRight).dirny = s.dirny ∧
          (s.handleInput keysOnlyRight).turns = s.turns)) ∧
      ((s.dirnx, s.dirny) = (0, 1) →
        ((s.handleInput keysOnlyUp).dirnx = s.dirnx ∧
          (s.handleInput keysOnlyUp).dirny = s.dirny ∧
          (s.handleInput keysOnlyUp).turns = s.turns)) ∧
      ((s.dirnx, s.dirny) = (0, -1) →
        ((s.handleInput keysOnlyDown).dirnx = s.dirnx ∧
          (s.handleInput keysOnlyDown).dirny = s.dirny ∧
          (s.handleInput keysOnlyDown).turns = s.turns))) := by
  refine ⟨?_, ?_, ?_, ?_⟩ <;> intro h <;>
    rw [Prod.mk.injEq] at h <;> obtain ⟨h1, h2⟩ := h <;>
    simp [Snake.handleInput, keysOnlyLeft, keysOnlyRight, keysOnlyUp,
      keysOnlyDown, h1, h2]

/-- C5 witness: a concrete snake moving right ignores a LEFT-only key
state. -/
theorem c5_no_reversal_witness :
    ((Snake.init (255, 0, 0) (10, 10)).reset (3, 3) |>
        fun s => { s with dirnx := 1, dirny := 0 } |>
        fun s => ((s.handleInput keysOnlyLeft).dirnx = s.dirnx ∧
          (s.handleInput keysOnlyLeft).dirny = s.dirny ∧
          (s.handleInput keysOnlyLeft).turns = s.turns)) := by
  exact (c5_no_reversal _).1 rfl

/-! ## C6 -/

/-- C6: for every snake the game can produce, one `add_cube()` call
grows the body by exactly one segment; the new tail inherits the old
tail's stored direction and sits one cell behind the old tail, opposite
to that direction. -/
theorem c6_add_cube_grows (rows : Int) (start : Int × Int) (s : Snake)
    (h : Reachable rows start s) :
    s.addCube.body.length = s.body.length + 1 ∧
    ((s.addCube.body.getLastD (Cube.ofStart (0, 0))).dirnx,
        (s.addCube.body.getLastD (Cube.ofStart (0, 0))).dirny) =
      ((s.body.getLastD (Cube.ofStart (0, 0))).dirnx,
        (s.body.getLastD (Cube.ofStart (0, 0))).dirny) ∧
    (s.addCube.body.getLastD (Cube.ofStart (0, 0))).pos =
      ((s.body.getLastD (Cube.ofStart (0, 0))).pos.1 -
          (s.body.getLastD (Cube.ofStart (0, 0))).dirnx,
        (s.body.getLastD (Cube.ofStart (0, 0))).pos.2 -
          (s.body.getLastD (Cube.ofStart (0, 0))).dirny) := by
  obtain ⟨hne, hdirs, ht⟩ := reachable_dirInvariant h
  have htail := hdirs _ (getLastD_mem hne (Cube.ofStart (0, 0)))
  have hb := addCube_body_of_axis s htail
  rw [hb, List.getLastD_concat]
  refine ⟨by simp, rfl, rfl⟩

/-- C6 witness: growing the fresh snake at `(10, 10)` (tail direction
`(1, 0)`) appends a segment at `(9, 10)` with direction `(1, 0)`. -/
theorem c6_add_cube_grows_witness :
    (Snake.init (255, 0, 0) (10, 10)).addCube.body.length =
        (Snake.init (255, 0, 0) (10, 10)).body.length + 1 ∧
      (((Snake.init (255, 0, 0) (10, 10)).addCube.body.getLastD
            (Cube.ofStart (0, 0))).dirnx,
          ((Snake.init (255, 0, 0) (10, 10)).addCube.body.getLastD
            (Cube.ofStart (0, 0))).dirny) =
        (((Snake.init (255, 0, 0) (10, 10)).body.getLastD
            (Cube.ofStart (0, 0))).dirnx,
          ((Snake.init (255, 0, 0) (10, 10)).body.getLastD
            (Cube.ofStart (0, 0))).dirny) ∧
      ((Snake.init (255, 0, 0) (10, 10)).addCube.body.getLastD
          (Cube.ofStart (0, 0))).pos =
        (((Snake.init (255, 0, 0) (10, 10)).body.getLastD
              (Cube.ofStart (0, 0))).pos.1 -
            ((Snake.init (255, 0, 0) (10, 10)).body.getLastD
              (Cube.ofStart (0, 0))).dirnx,
          ((Snake.init (255, 0, 0) (10, 10)).body.getLastD
              (Cube.ofStart (0, 0))).pos.2 -
            ((Snake.init (255, 0, 0) (10, 10)).body.getLastD
              (Cube.ofStart (0, 0))).dirny) :=
  c6_add_cube_grows 20 (10, 10) _ (Reachable.init (255, 0, 0))

/-! ## C4 -/

/-- C4: for a segment whose position is not a pending-turn key,
`Snake.move`'s per-segment step wraps at the grid edges: direction
`(-1,0)` at `x ≤ 0` teleports to `x = rows - 1`; `(1,0)` at
`x ≥ rows - 1` to `x = 0`; `(0,1)` at `y ≥ rows - 1` to `y = 0`;
`(0,-1)` at `y ≤ 0` to `y = rows - 1`; in all four cases the stored
direction fields are untouched and the turns dict is unchanged. -/
theorem c4_wrap_cases (rows : Int) (t : Turns) (b : Bool) (c : Cube)
    (hl : turnsLookup t c.pos = none) :
    (((c.dirnx, c.dirny) = (-1, 0) → c.pos.1 ≤ 0 →
        moveCube rows t b c = ({ c with pos := (rows - 1, c.pos.2) }, t)) ∧
      ((c.dirnx, c.dirny) = (1, 0) → c.pos.1 ≥ rows - 1 →
        moveCube rows t b c = ({ c with pos := (0, c.pos.2) }, t)) ∧
      ((c.dirnx, c.dirny) = (0, 1) → c.pos.2 ≥ rows - 1 →
        moveCube rows t b c = ({ c with pos := (c.pos.1, 0) }, t)) ∧
      ((c.dirnx, c.dirny) = (0, -1) → c.pos.2 ≤ 0 →
        moveCube rows t b c = ({ c with pos := (c.pos.1, rows - 1) }, t))) := by
  refine ⟨?_, ?_, ?_, ?_⟩ <;> intro hd hp <;>
    rw [Prod.mk.injEq] at hd <;> obtain ⟨h1, h2⟩ := hd <;>
    simp [moveCube, hl, h1, h2, hp]

/-- C4 witness: the four wrap cases evaluated on concrete cubes on the
20-row grid with an empty turns dict. -/
theorem c4_wrap_cases_witness :
    (moveCube 20 [] false (segAt (0, 5) (-1, 0)) =
        (segAt (19, 5) (-1, 0), []) ∧
      moveCube 20 [] false (segAt (19, 5) (1, 0)) =
        (segAt (0, 5) (1, 0), []) ∧
      moveCube 20 [] false (segAt (5, 19) (0, 1)) =
        (segAt (5, 0) (0, 1), []) ∧
      moveCube 20 [] false (segAt (5, 0) (0, -1)) =
        (segAt (5, 19) (0, -1), [])) := by
  refine ⟨?_, ?_, ?_, ?_⟩
  · exact (c4_wrap_cases 20 [] false (segAt (0, 5) (-1, 0)) rfl).1
      rfl (by decide)
  · exact (c4_wrap_cases 20 [] false (segAt (19, 5) (1, 0)) rfl).2.1
      rfl (by decide)
  · exact (c4_wrap_cases 20 [] false (segAt (5, 19) (0, 1)) rfl).2.2.1
      rfl (by decide)
  · exact (c4_wrap_cases 20 [] false (segAt (5, 0) (0, -1)) rfl).2.2.2
      rfl (by decide)

/-! ## C10 -/

/-- C10: when the tail's stored direction is not one of the four axis
units, `add_cube` appends nothing — the snake is completely unchanged
(the final direction reassignment writes back the existing values). -/
theorem c10_add_cube_degenerate (s : Snake) (hne : s.body ≠ [])
    (hdeg : ¬ isAxisUnit ((s.body.getLastD (Cube.ofStart (0, 0))).dirnx,
      (s.body.getLastD (Cube.ofStart (0, 0))).dirny)) :
    s.addCube = s := by
  obtain hnil | ⟨l, c, hlc⟩ := s.body.eq_nil_or_concat'
  · exact absurd hnil hne
  unfold Snake.addCube
  rw [isAxisUnit] at hdeg
  push_neg at hdeg
  obtain ⟨hd1, hd2, hd3, hd4⟩ := hdeg
  have e1 : ¬((s.body.getLastD (Cube.ofStart (0, 0))).dirnx = 1 ∧
      (s.body.getLastD (Cube.ofStart (0, 0))).dirny = 0) :=
    fun h => hd1 (by rw [h.1, h.2])
  have e2 : ¬((s.body.getLastD (Cube.ofStart (0, 0))).dirnx = -1 ∧
      (s.body.getLastD (Cube.ofStart (0, 0))).dirny = 0) :=
    fun h => hd2 (by rw [h.1, h.2])
  have e3 : ¬((s.body.getLastD (Cube.ofStart (0, 0))).dirnx = 0 ∧
      (s.body.getLastD (Cube.ofStart (0, 0))).dirny = 1) :=
    fun h => hd3 (by rw [h.1, h.2])
  have e4 : ¬((s.body.getLastD (Cube.ofStart (0, 0))).dirnx = 0 ∧
      (s.body.getLastD (Cube.ofStart (0, 0))).dirny = -1) :=
    fun h => hd4 (by rw [h.1, h.2])
  simp only [if_neg e1, if_neg e2, if_neg e3, if_neg e4]
  rw [hlc, setLastDir_self, ← hlc]

/-- C10 witness: a one-segment snake whose cube direction is `(0, 0)` is
untouched by `add_cube`. -/
theorem c10_add_cube_degenerate_witness :
    Snake.addCube
        { color := (255, 0, 0)
          body := [{ pos := (5, 5), dirnx := 0, dirny := 0,
                     color := (255, 0, 0) }]
          turns := []
          dirnx := 0
          dirny := 1 } =
      { color := (255, 0, 0)
        body := [{ pos := (5, 5), dirnx := 0, dirny := 0,
                   color := (255, 0, 0) }]
        turns := []
        dirnx := 0
        dirny := 1 } := by
  exact c10_add_cube_degenerate _ (by decide) (by decide)

/-- Collision at index 0 of a non-empty body means some later segment
shares the head's position. -/
theorem collAt_cons_zero {c : Cube} {rest : List Cube} :
    collAt (c :: rest) 0 ↔ ∃ c2 ∈ rest, c2.pos = c.pos := by
  simp [collAt]

/-- Collision at a successor index steps into the list tail. -/
theorem collAt_cons_succ {c : Cube} {rest : List Cube} {j : Nat} :
    collAt (c :: rest) (j + 1) ↔ collAt rest j := by
  simp [collAt]

/-- The game-loop scan returns exactly the least colliding index. -/
theorem collisionScan_eq_some : ∀ {l : List Cube} {i : Nat},
    collAt l i → (∀ j < i, ¬ collAt l j) → collisionScan l = some i := by
  intro l
  induction l with
  | nil => intro i h1 _; simp [collAt] at h1
  | cons c rest ih =>
      intro i h1 h2
      cases i with
      | zero =>
          obtain ⟨c2, hm, hp⟩ := collAt_cons_zero.mp h1
          rw [collisionScan, if_pos]
          exact List.any_eq_true.mpr ⟨c2, hm, by simp [hp]⟩
      | succ j =>
          have h0 : ¬ collAt (c :: rest) 0 := h2 0 (Nat.succ_pos j)
          rw [collisionScan, if_neg, ih (collAt_cons_succ.mp h1)
            (fun j' hj' => fun hcj' =>
              h2 (j' + 1) (Nat.succ_lt_succ hj') (collAt_cons_succ.mpr hcj'))]
          · rfl
          · intro hany
            obtain ⟨c2, hm, hp⟩ := List.any_eq_true.mp hany
            exact h0 (collAt_cons_zero.mpr ⟨c2, hm, by simpa using hp⟩)

/-! ## C7 -/

/-- C7: in the game loop's self-collision step, when `i` is the first
index whose position recurs in a strictly later segment, the scan stops
exactly at `i`, the score is the body length at detection time, and the
snake is reset to a single fresh segment at the start position with empty
pending turns and snake-level direction `(0, 1)`; nothing else of the
tick happens (one collision handled per tick). -/
theorem c7_self_collision (start : Int × Int) (s : Snake) (i : Nat)
    (h1 : collAt s.body i) (h2 : ∀ j < i, ¬ collAt s.body j) :
    collisionScan s.body = some i ∧
      selfCollisionTick start s = (some s.body.length,
        { s with body := [Cube.ofStart start], turns := []
                 dirnx := 0, dirny := 1 }) := by
  have hscan := collisionScan_eq_some h1 h2
  refine ⟨hscan, ?_⟩
  rw [selfCollisionTick, hscan]
  rfl

/-- C7 witness: a three-segment body whose head position recurs at index
2 is caught at index 0, scored 3, and reset to `(10, 10)`. -/
theorem c7_self_collision_witness :
    collisionScan [segAt (1, 1) (1, 0), segAt (2, 2) (1, 0),
        segAt (1, 1) (0, 1)] = some 0 ∧
      selfCollisionTick (10, 10)
          { color := (255, 0, 0)
            body := [segAt (1, 1) (1, 0), segAt (2, 2) (1, 0),
              segAt (1, 1) (0, 1)]
            turns := []
            dirnx := 0
            dirny := 1 } =
        (some 3,
          { color := (255, 0, 0)
            body := [Cube.ofStart (10, 10)]
            turns := []
            dirnx := 0
            dirny := 1 }) :=
  c7_self_collision (10, 10)
    { color := (255, 0, 0)
      body := [segAt (1, 1) (1, 0), segAt (2, 2) (1, 0), segAt (1, 1) (0, 1)]
      turns := []
      dirnx := 0
      dirny := 1 } 0 (by decide)
    (fun j hj => absurd hj (Nat.not_lt_zero j))

/-- Partial correctness of the rejection loop: whatever it returns is a
draw that passed the overlap check, hence (by `randbelow`'s contract) an
in-range cell off the snake. -/
theorem randomSnackAux_some {rows : Nat} {body : List Cube}
    {draws : Nat → Nat × Nat}
    (hdr : ∀ n, (draws n).1 < rows ∧ (draws n).2 < rows) :
    ∀ fuel i x y, randomSnackAux body draws fuel i = some (x, y) →
      x < rows ∧ y < rows ∧ ∀ c ∈ body, c.pos ≠ ((x : Int), (y : Int)) := by
  intro fuel
  induction fuel with
  | zero => intro i x y h; simp [randomSnackAux] at h
  | succ n ih =>
      intro i x y h
      simp only [randomSnackAux] at h
      split_ifs at h with hb
      · exact ih (i + 1) x y h
      · rw [Option.some.injEq, Prod.mk.injEq] at h
        obtain ⟨hx, hy⟩ := h
        subst hx
        subst hy
        refine ⟨(hdr i).1, (hdr i).2, ?_⟩
        intro c hc hp
        exact hb (List.any_eq_true.mpr ⟨c, hc, by simp [hp]⟩)

/-! ## C8 -/

/-- C8: for a grid of `rows ≥ 1` and a body not filling the grid,
whenever `random_snack` returns a cell `(x, y)`, it lies in `[0, rows)²`
and on no snake segment. -/
theorem c8_random_snack_valid (rows : Nat) (body : List Cube)
    (draws : Nat → Nat × Nat) (fuel x y : Nat)
    (_hN : 1 ≤ rows)
    (hdr : ∀ n, (draws n).1 < rows ∧ (draws n).2 < rows)
    (_hfree : ∃ p : Nat × Nat, p.1 < rows ∧ p.2 < rows ∧
      ∀ c ∈ body, c.pos ≠ ((p.1 : Int), (p.2 : Int)))
    (hret : randomSnackAux body draws fuel 0 = some (x, y)) :
    x < rows ∧ y < rows ∧ ∀ c ∈ body, c.pos ≠ ((x : Int), (y : Int)) :=
  randomSnackAux_some hdr fuel 0 x y hret

/-- C8 witness: with one segment at `(0, 0)` on the 2-grid and draws
always `(1, 1)`, the loop returns `(1, 1)`, which is in range and off the
snake. -/
theorem c8_random_snack_valid_witness :
    1 < 2 ∧ 1 < 2 ∧ ∀ c ∈ [Cube.ofStart (0, 0)],
      c.pos ≠ ((1 : Int), (1 : Int)) :=
  c8_random_snack_valid 2 [Cube.ofStart (0, 0)] (fun _ => (1, 1)) 1 1 1
    (by decide) (fun _ => ⟨one_lt_two, one_lt_two⟩)
    ⟨(1, 1), by decide, by decide, by decide⟩ (by decide)

/-- If some loop pass draws a free cell, the loop stops within that many
passes. -/
theorem randomSnackAux_isSome {body : List Cube} {draws : Nat → Nat × Nat} :
    ∀ k i : Nat,
      (∀ c ∈ body, c.pos ≠ (((draws (i + k)).1 : Int), ((draws (i + k)).2 : Int))) →
      (randomSnackAux body draws (k + 1) i).isSome = true := by
  intro k
  induction k with
  | zero =>
      intro i h
      simp only [randomSnackAux]
      split_ifs with hb
      · exfalso
        obtain ⟨c, hc, hp⟩ := List.any_eq_true.mp hb
        exact h c hc (by simpa using hp)
      · rfl
  | succ k ih =>
      intro i h
      show (if body.any (fun cube => cube.pos =
            (((draws i).1 : Int), ((draws i).2 : Int))) then
          randomSnackAux body draws (k + 1) (i + 1)
        else some ((draws i).1, (draws i).2)).isSome = true
      split_ifs with hb
      · apply ih (i + 1)
        have he : i + 1 + k = i + (k + 1) := by omega
        rw [he]
        exact h
      · rfl

/-- With a fully occupied grid every pass rejects, so no fuel suffices. -/
theorem randomSnackAux_none {rows : Nat} {body : List Cube}
    {draws : Nat → Nat × Nat}
    (hdr : ∀ n, (draws n).1 < rows ∧ (draws n).2 < rows)
    (hfull : ∀ p : Nat × Nat, p.1 < rows → p.2 < rows →
      ∃ c ∈ body, c.pos = ((p.1 : Int), (p.2 : Int))) :
    ∀ fuel i, randomSnackAux body draws fuel i = none := by
  intro fuel
  induction fuel with
  | zero => intro i; rfl
  | succ n ih =>
      intro i
      simp only [randomSnackAux]
      obtain ⟨c, hc, hp⟩ := hfull (draws i) (hdr i).1 (hdr i).2
      rw [if_pos (List.any_eq_true.mpr ⟨c, hc, by simp [hp]⟩)]
      exact ih (i + 1)

/-! ## C9 -/

/-- C9: the `random_snack` rejection loop terminates whenever a free cell
exists — given the fairness of the random source (every in-range cell is
eventually drawn, the almost-sure behavior of `secrets.randbelow`) — and
with every grid cell occupied it never terminates (no amount of fuel
returns a cell). -/
theorem c9_random_snack_termination (rows : Nat) (body : List Cube)
    (draws : Nat → Nat × Nat) :
    ((∀ p : Nat × Nat, p.1 < rows → p.2 < rows → ∃ n, draws n = p) →
      (∃ p : Nat × Nat, p.1 < rows ∧ p.2 < rows ∧
        ∀ c ∈ body, c.pos ≠ ((p.1 : Int), (p.2 : Int))) →
      ∃ fuel, (randomSnackAux body draws fuel 0).isSome = true) ∧
    ((∀ n, (draws n).1 < rows ∧ (draws n).2 < rows) →
      (∀ p : Nat × Nat, p.1 < rows → p.2 < rows →
        ∃ c ∈ body, c.pos = ((p.1 : Int), (p.2 : Int))) →
      ∀ fuel i, randomSnackAux body draws fuel i = none) := by
  constructor
  · intro hfair hfree
    obtain ⟨p, hp1, hp2, hp3⟩ := hfree
    obtain ⟨n, hn⟩ := hfair p hp1 hp2
    refine ⟨n + 1, randomSnackAux_isSome n 0 ?_⟩
    intro c hc
    rw [Nat.zero_add, hn]
    exact hp3 c hc
  · intro hdr hfull
    exact randomSnackAux_none hdr hfull

/-- C9 witness: on the 1-grid, an empty body lets the loop stop, and a
body occupying the single cell makes every fuel return nothing. -/
theorem c9_random_snack_termination_witness :
    (∃ fuel, (randomSnackAux [] (fun _ => (0, 0)) fuel 0).isSome = true) ∧
      ∀ fuel i, randomSnackAux [Cube.ofStart (0, 0)] (fun _ => (0, 0))
        fuel i = none := by
  constructor
  · refine (c9_random_snack_termination 1 [] (fun _ => (0, 0))).1 ?_ ?_
    · intro p h1 h2
      refine ⟨0, ?_⟩
      have hp1 : p.1 = 0 := by omega
      have hp2 : p.2 = 0 := by omega
      exact (Prod.ext hp1 hp2).symm
    · exact ⟨(0, 0), by decide, by decide, by simp⟩
  · refine (c9_random_snack_termination 1 [Cube.ofStart (0, 0)]
      (fun _ => (0, 0))).2 (fun n => ⟨by decide, by decide⟩) ?_
    intro p h1 h2
    refine ⟨Cube.ofStart (0, 0), by simp, ?_⟩
    have hp1 : p.1 = 0 := by omega
    have hp2 : p.2 = 0 := by omega
    rw [hp1, hp2]
    rfl

/-- Lookup misses a single-binding dict keyed elsewhere. -/
theorem turnsLookup_single_ne {p v q : Int × Int} (h : q ≠ p) :
    turnsLookup [(p, v)] q = none := by
  rw [turnsLookup, if_neg (fun hh => h hh.symm)]
  rfl

/-- A cube off every pending-turn key and off every edge is simply moved
by its own stored direction, with the dict untouched. -/
theorem moveCube_simple {rows : Int} {t : Turns} {b : Bool} {c : Cube}
    (hl : turnsLookup t c.pos = none) (hw : noWrapGuards rows c) :
    moveCube rows t b c = (c.move c.dirnx c.dirny, t) := by
  obtain ⟨g1, g2, g3, g4⟩ := hw
  simp only [moveCube, hl]
  rw [if_neg g1, if_neg g2, if_neg g3, if_neg g4]

/-- The move loop walks over a prefix of plainly moving cubes without
touching the dict. -/
theorem moveBody_simple_prefix {rows : Int} {t : Turns} {l₁ : List Cube}
    (l₂ : List Cube)
    (h : ∀ c ∈ l₁, turnsLookup t c.pos = none ∧ noWrapGuards rows c) :
    moveBody rows t (l₁ ++ l₂) =
      (l₁.map (fun c => c.move c.dirnx c.dirny) ++ (moveBody rows t l₂).1,
        (moveBody rows t l₂).2) := by
  induction l₁ with
  | nil => rfl
  | cons c l₁' ih =>
      have hc := h c (List.mem_cons_self _ _)
      show ((moveCube rows t (l₁' ++ l₂).isEmpty c).1 ::
          (moveBody rows (moveCube rows t (l₁' ++ l₂).isEmpty c).2
            (l₁' ++ l₂)).1,
          (moveBody rows (moveCube rows t (l₁' ++ l₂).isEmpty c).2
            (l₁' ++ l₂)).2) = _
      rw [moveCube_simple hc.1 hc.2]
      show (c.move c.dirnx c.dirny :: (moveBody rows t (l₁' ++ l₂)).1,
        (moveBody rows t (l₁' ++ l₂)).2) = _
      rw [ih (fun x hx => h x (List.mem_cons_of_mem _ hx))]
      show (c.move c.dirnx c.dirny ::
          (l₁'.map (fun c => c.move c.dirnx c.dirny) ++
            (moveBody rows t l₂).1), (moveBody rows t l₂).2) = _
      rw [List.map_cons, List.cons_append]

/-- The move loop over a list of plainly moving cubes is a pointwise
self-move. -/
theorem moveBody_simple_all {rows : Int} {t : Turns} {l : List Cube}
    (h : ∀ c ∈ l, turnsLookup t c.pos = none ∧ noWrapGuards rows c) :
    moveBody rows t l = (l.map (fun c => c.move c.dirnx c.dirny), t) := by
  have h2 := moveBody_simple_prefix [] h
  rw [List.append_nil] at h2
  rw [h2]
  show (_ ++ ([] : List Cube), t) = _
  rw [List.append_nil]

/-- The move loop on a body whose first remaining cube sits on the single
pending-turn key: the turn is applied to it, the others self-move, and
the binding is popped exactly when nothing follows (the tail case). -/
theorem moveBody_turn_head {rows : Int} {p d' : Int × Int} {c : Cube}
    {l : List Cube} (hc : c.pos = p)
    (hl : ∀ x ∈ l, x.pos ≠ p ∧ noWrapGuards rows x) :
    moveBody rows [(p, d')] (c :: l) =
      (c.move d'.1 d'.2 :: l.map (fun x => x.move x.dirnx x.dirny),
        if l.isEmpty then [] else [(p, d')]) := by
  have hlk : turnsLookup [(p, d')] c.pos = some d' := by
    rw [turnsLookup, if_pos hc.symm]
  have her : turnsErase [(p, d')] c.pos = [] := by
    rw [turnsErase, if_pos hc.symm]
  have hmc : moveCube rows [(p, d')] l.isEmpty c =
      (c.move d'.1 d'.2, if l.isEmpty then [] else [(p, d')]) := by
    rw [moveCube, hlk]
    show (c.move d'.1 d'.2,
      if l.isEmpty then turnsErase [(p, d')] c.pos else [(p, d')]) = _
    rw [her]
  show ((moveCube rows [(p, d')] l.isEmpty c).1 ::
      (moveBody rows (moveCube rows [(p, d')] l.isEmpty c).2 l).1,
      (moveBody rows (moveCube rows [(p, d')] l.isEmpty c).2 l).2) = _
  rw [hmc]
  show (c.move d'.1 d'.2 ::
      (moveBody rows (if l.isEmpty then [] else [(p, d')]) l).1,
      (moveBody rows (if l.isEmpty then [] else [(p, d')]) l).2) = _
  cases l with
  | nil => rfl
  | cons x l' =>
      have ht' : (if (x :: l').isEmpty then ([] : Turns) else [(p, d')]) =
        [(p, d')] := rfl
      rw [ht']
      have hmemb : ∀ y ∈ x :: l',
          turnsLookup [(p, d')] y.pos = none ∧ noWrapGuards rows y :=
        fun y hy => ⟨turnsLookup_single_ne (hl y hy).1, (hl y hy).2⟩
      rw [moveBody_simple_all hmemb]

/-- Snakes with equal components are equal. -/
theorem snakeExt {a b : Snake} (h1 : a.color = b.color)
    (h2 : a.body = b.body) (h3 : a.turns = b.turns)
    (h4 : a.dirnx = b.dirnx) (h5 : a.dirny = b.dirny) : a = b := by
  cases a
  cases b
  simp_all

/-- Self-moving a turned segment advances it one more cell along the new
direction. -/
theorem turnedSeg_selfMove (p d' : Int × Int) (m : Nat) :
    (turnedSeg p d' m).move (turnedSeg p d' m).dirnx
      (turnedSeg p d' m).dirny = turnedSeg p d' (m + 1) := by
  simp only [turnedSeg, segAt, Cube.move, Cube.mk.injEq, Prod.mk.injEq,
    and_true]
  push_cast
  constructor <;> ring

/-- Self-moving a trailing segment brings it one cell closer to the turn
cell. -/
theorem trailSeg_selfMove (p d0 : Int × Int) (j : Nat) :
    (trailSeg p d0 (j + 1)).move (trailSeg p d0 (j + 1)).dirnx
      (trailSeg p d0 (j + 1)).dirny = trailSeg p d0 j := by
  simp only [trailSeg, segAt, Cube.move, Cube.mk.injEq, Prod.mk.injEq,
    and_true]
  push_cast
  constructor <;> ring

/-- The trailing segment right on the turn cell. -/
theorem trailSeg_zero_pos {p d0 : Int × Int} : (trailSeg p d0 0).pos = p := by
  simp [trailSeg, segAt]

/-- Applying the turn to the segment on the turn cell yields the first
turned segment. -/
theorem trailSeg_zero_move (p d0 d' : Int × Int) :
    (trailSeg p d0 0).move d'.1 d'.2 = turnedSeg p d' 1 := by
  simp only [trailSeg, turnedSeg, segAt, Cube.move, Cube.mk.injEq,
    Prod.mk.injEq, and_true]
  push_cast
  constructor <;> ring

/-- A segment strictly beyond the turn cell along an axis unit is not on
the turn cell. -/
theorem turnedSeg_pos_ne {p d' : Int × Int} {m : Nat}
    (hd' : isAxisUnit d') (hm : 1 ≤ m) : (turnedSeg p d' m).pos ≠ p := by
  rcases hd' with h | h | h | h <;> subst h <;>
    · intro hc
      rw [Prod.ext_iff] at hc
      simp only [turnedSeg, segAt] at hc
      obtain ⟨hc1, hc2⟩ := hc
      simp at hc1 hc2
      omega

/-- A segment strictly behind the turn cell along an axis unit is not on
the turn cell. -/
theorem trailSeg_pos_ne {p d0 : Int × Int} {j : Nat}
    (hd0 : isAxisUnit d0) (hj : 1 ≤ j) : (trailSeg p d0 j).pos ≠ p := by
  rcases hd0 with h | h | h | h <;> subst h <;>
    · intro hc
      rw [Prod.ext_iff] at hc
      simp only [trailSeg, segAt] at hc
      obtain ⟨hc1, hc2⟩ := hc
      simp at hc1 hc2
      omega

/-- No wrap guard fires for an axis-unit cube strictly inside the grid. -/
theorem segAt_noWrap {rows : Int} {q d : Int × Int}
    (hax : isAxisUnit d) (hint : interiorPos rows q) :
    noWrapGuards rows (segAt q d) := by
  obtain ⟨i1, i2, i3, i4⟩ := hint
  rcases hax with h | h | h | h <;> subst h <;>
    refine ⟨fun hh => ?_, fun hh => ?_, fun hh => ?_, fun hh => ?_⟩ <;>
    · obtain ⟨ha, hb⟩ := hh
      simp only [segAt] at ha hb
      omega

/-- One `Snake.move` advances the straight-line turn-propagation state by
one step: the segment on the turn cell adopts the new direction, every
turned segment advances along it, every trailing segment closes in on the
cell, and the binding is popped exactly on the move that processes the
tail at the cell. -/
theorem lineSnake_step {rows : Int} {color : Nat × Nat × Nat}
    {p d0 d' : Int × Int} {L k : Nat}
    (hd0 : isAxisUnit d0) (hd' : isAxisUnit d') (hk : k < L)
    (h1 : ∀ m : Fin L, interiorPos rows
      (p.1 + (m : Nat) * d'.1, p.2 + (m : Nat) * d'.2))
    (h2 : ∀ m : Fin L, interiorPos rows
      (p.1 - (m : Nat) * d0.1, p.2 - (m : Nat) * d0.2)) :
    (lineSnakeAt color p d0 d' L k).moveS rows =
      lineSnakeAt color p d0 d' L (k + 1) := by
  obtain ⟨n, hn⟩ : ∃ n, L - k = n + 1 := ⟨L - k - 1, by omega⟩
  have hturns0 : (lineSnakeAt color p d0 d' L k).turns = [(p, d')] := by
    show (if k < L then [(p, d')] else []) = [(p, d')]
    rw [if_pos hk]
  have hbody0 : (lineSnakeAt color p d0 d' L k).body =
      ((List.range k).map fun i => turnedSeg p d' (k - i)) ++
        ((List.range (L - k)).map (trailSeg p d0)) := rfl
  have hT : (List.range (L - k)).map (trailSeg p d0) =
      trailSeg p d0 0 ::
        (List.range n).map fun j => trailSeg p d0 (j + 1) := by
    rw [hn, List.range_succ_eq_map, List.map_cons, List.map_map]
    rfl
  have hA : ∀ c ∈ (List.range k).map fun i => turnedSeg p d' (k - i),
      turnsLookup [(p, d')] c.pos = none ∧ noWrapGuards rows c := by
    intro c hcm
    rw [List.mem_map] at hcm
    obtain ⟨i, hi, rfl⟩ := hcm
    rw [List.mem_range] at hi
    have hm1 : 1 ≤ k - i := by omega
    have hmL : k - i < L := by omega
    exact ⟨turnsLookup_single_ne (turnedSeg_pos_ne hd' hm1),
      segAt_noWrap hd' (h1 ⟨k - i, hmL⟩)⟩
  have hR : ∀ c ∈ (List.range n).map fun j => trailSeg p d0 (j + 1),
      c.pos ≠ p ∧ noWrapGuards rows c := by
    intro c hcm
    rw [List.mem_map] at hcm
    obtain ⟨j, hj, rfl⟩ := hcm
    rw [List.mem_range] at hj
    have hjL : j + 1 < L := by omega
    exact ⟨trailSeg_pos_ne hd0 (Nat.le_add_left 1 j),
      segAt_noWrap hd0 (h2 ⟨j + 1, hjL⟩)⟩
  have hTmove : moveBody rows [(p, d')]
      ((List.range (L - k)).map (trailSeg p d0)) =
      (turnedSeg p d' 1 :: (List.range n).map (trailSeg p d0),
        if k + 1 < L then [(p, d')] else []) := by
    rw [hT, moveBody_turn_head trailSeg_zero_pos hR]
    congr 1
    · congr 1
      · exact trailSeg_zero_move p d0 d'
      · rw [List.map_map]
        refine List.map_congr_left ?_
        intro j _
        exact trailSeg_selfMove p d0 j
    · by_cases hn0 : n = 0
      · subst hn0
        rw [if_neg (show ¬ k + 1 < L by omega)]
        rfl
      · have hisE : ((List.range n).map fun j =>
            trailSeg p d0 (j + 1)).isEmpty = false := by
          simp [List.isEmpty_iff, List.range_eq_nil, hn0]
        rw [hisE, if_pos (show k + 1 < L by omega)]
        rfl
  have hpref := moveBody_simple_prefix
    ((List.range (L - k)).map (trailSeg p d0)) hA
  refine snakeExt rfl ?_ ?_ rfl rfl
  · rw [moveS_body, hturns0, hbody0, hpref, hTmove]
    show (((List.range k).map fun i => turnedSeg p d' (k - i)).map
        (fun c => c.move c.dirnx c.dirny) ++
        (turnedSeg p d' 1 :: (List.range n).map (trailSeg p d0))) =
      (lineSnakeAt color p d0 d' L (k + 1)).body
    have hbody1 : (lineSnakeAt color p d0 d' L (k + 1)).body =
        ((List.range (k + 1)).map fun i => turnedSeg p d' (k + 1 - i)) ++
          ((List.range (L - (k + 1))).map (trailSeg p d0)) := rfl
    have hL1 : L - (k + 1) = n := by omega
    rw [hbody1, hL1, List.range_succ, List.map_append, List.map_singleton,
      show k + 1 - k = 1 by omega, List.append_assoc, List.singleton_append]
    congr 1
    rw [List.map_map]
    refine List.map_congr_left ?_
    intro i hi
    rw [List.mem_range] at hi
    rw [show k + 1 - i = k - i + 1 by omega]
    exact turnedSeg_selfMove p d' (k - i)
  · rw [moveS_turns, hturns0, hbody0, hpref, hTmove]
    show (if k + 1 < L then [(p, d')] else []) =
      (lineSnakeAt color p d0 d' L (k + 1)).turns
    rfl

/-- Iterating `Snake.move` from step `k` of the turn-propagation state
reaches step `k + j`. -/
theorem lineSnake_iterate {rows : Int} (color : Nat × Nat × Nat)
    {p d0 d' : Int × Int} {L : Nat}
    (hd0 : isAxisUnit d0) (hd' : isAxisUnit d')
    (h1 : ∀ m : Fin L, interiorPos rows
      (p.1 + (m : Nat) * d'.1, p.2 + (m : Nat) * d'.2))
    (h2 : ∀ m : Fin L, interiorPos rows
      (p.1 - (m : Nat) * d0.1, p.2 - (m : Nat) * d0.2)) :
    ∀ j k : Nat, k + j ≤ L →
      (Snake.moveS rows)^[j] (lineSnakeAt color p d0 d' L k) =
        lineSnakeAt color p d0 d' L (k + j) := by
  intro j
  induction j with
  | zero => intro k _; simp
  | succ j ih =>
      intro k hkj
      rw [Function.iterate_succ_apply,
        show Snake.moveS rows (lineSnakeAt color p d0 d' L k) =
            lineSnakeAt color p d0 d' L (k + 1) from
          lineSnake_step hd0 hd' (by omega) h1 h2,
        ih (k + 1) (by omega), show k + 1 + j = k + (j + 1) by omega]

/-! ## C3 -/

/-- C3 counterexample: a two-segment snake whose pending-turns map holds
exactly one entry, recorded at the head's current cell, but whose second
segment does not trail the head through that cell: after 2 = body-length
moves the entry is still in the map and the second segment's direction
never becomes the recorded one. -/
theorem c3_counterexample :
    (Snake.body
          { color := (255, 0, 0)
            body := [segAt (5, 5) (1, 0), segAt (9, 9) (1, 0)]
            turns := [((5, 5), (0, 1))]
            dirnx := 0
            dirny := 1 }).length = 2 ∧
      Snake.turns
          { color := (255, 0, 0)
            body := [segAt (5, 5) (1, 0), segAt (9, 9) (1, 0)]
            turns := [((5, 5), (0, 1))]
            dirnx := 0
            dirny := 1 } =
        [((Snake.headCube
            { color := (255, 0, 0)
              body := [segAt (5, 5) (1, 0), segAt (9, 9) (1, 0)]
              turns := [((5, 5), (0, 1))]
              dirnx := 0
              dirny := 1 }).pos, (0, 1))] ∧
      ((Snake.moveS 20)^[2]
          { color := (255, 0, 0)
            body := [segAt (5, 5) (1, 0), segAt (9, 9) (1, 0)]
            turns := [((5, 5), (0, 1))]
            dirnx := 0
            dirny := 1 }).turns = [((5, 5), (0, 1))] ∧
      ∃ c ∈ ((Snake.moveS 20)^[2]
          { color := (255, 0, 0)
            body := [segAt (5, 5) (1, 0), segAt (9, 9) (1, 0)]
            turns := [((5, 5), (0, 1))]
            dirnx := 0
            dirny := 1 }).body,
        (c.dirnx, c.dirny) ≠ ((0 : Int), (1 : Int)) := by
  refine ⟨rfl, rfl, rfl, ?_⟩
  decide

/-- C3 amended: for every straight-line snake of length `L ≥ 1` — the
head at `p`, segment `i` sitting `i` cells behind `p` against the common
axis-unit direction `d0` — whose pending-turns map is exactly
`{p ↦ d'}` (`d'` an axis unit) with `p` the head's current cell, and
whose relevant cells all lie strictly inside the grid (so no edge wrap
fires): after exactly `L` calls to `Snake.move()` the entry has been
removed — it is still present before each earlier move and is consumed on
the move in which the tail sits at `p` — and every body segment's stored
direction equals `d'`.  (For bodies that do not trail the head through
`p`, the entry survives and the directions never change, as the
counterexample shows.) -/
theorem c3_turn_propagation (rows : Int) (color : Nat × Nat × Nat)
    (p d0 d' : Int × Int) (L : Nat)
    (hd0 : isAxisUnit d0) (hd' : isAxisUnit d') (_hL : 1 ≤ L)
    (h1 : ∀ m : Fin L, interiorPos rows
      (p.1 + (m : Nat) * d'.1, p.2 + (m : Nat) * d'.2))
    (h2 : ∀ m : Fin L, interiorPos rows
      (p.1 - (m : Nat) * d0.1, p.2 - (m : Nat) * d0.2)) :
    (lineSnakeAt color p d0 d' L 0).body.length = L ∧
      (∀ k, k < L →
        ((Snake.moveS rows)^[k] (lineSnakeAt color p d0 d' L 0)).turns =
          [(p, d')]) ∧
      ((Snake.moveS rows)^[L] (lineSnakeAt color p d0 d' L 0)).turns = [] ∧
      ∀ c ∈ ((Snake.moveS rows)^[L] (lineSnakeAt color p d0 d' L 0)).body,
        (c.dirnx, c.dirny) = d' := by
  have hit := lineSnake_iterate color hd0 hd' h1 h2
  refine ⟨by simp [lineSnakeAt], ?_, ?_, ?_⟩
  · intro k hk
    rw [hit k 0 (by omega), Nat.zero_add]
    show (if k < L then [(p, d')] else []) = [(p, d')]
    rw [if_pos hk]
  · rw [hit L 0 (by omega), Nat.zero_add]
    show (if L < L then [(p, d')] else []) = []
    rw [if_neg (lt_irrefl L)]
  · rw [hit L 0 (by omega), Nat.zero_add]
    intro c hcm
    have hbL : (lineSnakeAt color p d0 d' L L).body =
        (List.range L).map fun i => turnedSeg p d' (L - i) := by
      show ((List.range L).map fun i => turnedSeg p d' (L - i)) ++
          ((List.range (L - L)).map (trailSeg p d0)) = _
      rw [Nat.sub_self]
      simp
    rw [hbL, List.mem_map] at hcm
    obtain ⟨i, _, rfl⟩ := hcm
    rfl

/-- C3 witness: a straight 3-segment snake heading right from `(8, 10)`
to `(10, 10)` with a turn to `(0, 1)` stamped at the head cell `(10, 10)`
on the 20-row grid: the binding survives moves 0–2, is gone after move 3,
and all three segments then head down. -/
theorem c3_turn_propagation_witness :
    (lineSnakeAt (255, 0, 0) (10, 10) (1, 0) (0, 1) 3 0).body.length = 3 ∧
      (∀ k, k < 3 →
        ((Snake.moveS 20)^[k]
          (lineSnakeAt (255, 0, 0) (10, 10) (1, 0) (0, 1) 3 0)).turns =
          [((10, 10), (0, 1))]) ∧
      ((Snake.moveS 20)^[3]
        (lineSnakeAt (255, 0, 0) (10, 10) (1, 0) (0, 1) 3 0)).turns = [] ∧
      ∀ c ∈ ((Snake.moveS 20)^[3]
          (lineSnakeAt (255, 0, 0) (10, 10) (1, 0) (0, 1) 3 0)).body,
        (c.dirnx, c.dirny) = ((0 : Int), (1 : Int)) :=
  c3_turn_propagation 20 (255, 0, 0) (10, 10) (1, 0) (0, 1) 3
    (by decide) (by decide) (by decide) (by decide) (by decide)

end SnakeGame
